import Mathlib

/-!
Verification development for the tnfsh-timetable-core scheduling engine.

Shallow embedding of the Python sources:
* `scheduling/utils.py` — `is_free`, `find_streak_start_if_free`, `get_1_hop`
* `scheduling/scheduling.py` — `Scheduling.find_streak_start`, `Scheduling.fetch_course_node`
* `timetable_slot_log/crawler.py` — `TimetableSlotLogCrawler.parse`
* `index/crawler.py` — `_derive_id_to_info`, `_derive_name_mappings`
* `index/identify_index_key.py` — `identify_type`
* `timetable/cache.py` — `fetch_from_file`, `save_to_file`, `fetch`
* `tests/test_vitrual_scheduling/model/rotation.py` — `bwd_check`, `rotation`

Python strings are modelled by `Nat` codes or lists of classified characters,
dicts by insertion-ordered association lists, and exceptions by `Except`.
-/

/-! ## StreakTime (`timetable_slot_log_dict/models.py`)

`__eq__`/`__hash__` use only `(weekday, period)`; the `streak` field is
ignored by dictionary lookups. -/

structure StreakTime where
  weekday : Int
  period : Int
  streak : Int
deriving DecidableEq, Repr

/-- Dictionary-key equality of `StreakTime`: only `(weekday, period)` count. -/
def stKeyEq (a b : StreakTime) : Bool :=
  a.weekday == b.weekday && a.period == b.period

/-- `dict.get` on a `Dict[StreakTime, β]`: first binding whose key is
`(weekday, period)`-equal to the query. -/
def stLookup {β : Type} (m : List (StreakTime × β)) (k : StreakTime) : Option β :=
  match m with
  | [] => none
  | (k', v) :: rest => if stKeyEq k' k then some v else stLookup rest k

/-! ## The scheduling graph (`scheduling/models.py`)

`CourseNode`/`TeacherNode`/`ClassNode` form a cyclic object graph in Python;
here they are finite unfoldings (trees).  All embedded functions access the
graph only to a bounded depth, so finite unfoldings are enough.  Teacher and
class names are `Nat` codes; `teachers`/`classes`/`courses` dicts are
insertion-ordered association lists. -/

mutual
inductive CourseNode : Type where
  | mk (time : StreakTime) (is_free : Bool)
       (teachers : List (Nat × TeacherNode)) (classes : List (Nat × ClassNode))

inductive TeacherNode : Type where
  | mk (teacher_name : Nat) (courses : List (StreakTime × CourseNode))

inductive ClassNode : Type where
  | mk (class_code : Nat) (courses : List (StreakTime × CourseNode))
end

def CourseNode.time : CourseNode → StreakTime
  | .mk t _ _ _ => t

def CourseNode.is_free : CourseNode → Bool
  | .mk _ f _ _ => f

def CourseNode.teachers : CourseNode → List (Nat × TeacherNode)
  | .mk _ _ ts _ => ts

def CourseNode.classes : CourseNode → List (Nat × ClassNode)
  | .mk _ _ _ cs => cs

def TeacherNode.courses : TeacherNode → List (StreakTime × CourseNode)
  | .mk _ cs => cs

def ClassNode.courses : ClassNode → List (StreakTime × CourseNode)
  | .mk _ cs => cs

/-- Algorithm mode of the hop predicates (`Literal["rotation", "swap"]`). -/
inductive Mode where
  | rotation
  | swap
deriving DecidableEq, Repr

/-- Hop direction (`Literal["fwd", "bwd"]`). -/
inductive HType where
  | fwd
  | bwd
deriving DecidableEq, Repr

/-- Python exceptions that the embedded functions can raise. -/
inductive PyErr where
  | indexError
deriving DecidableEq, Repr

/-- Python `range(a, b)` with step `1`: the integers `a, a+1, …, b-1`
(empty when `b ≤ a`). -/
def rangeUp (a b : Int) : List Int :=
  (List.range (b - a).toNat).map (fun k => a + (k : Int))

/-- Python `range(a, b, -1)`: the integers `a, a-1, …, b+1`
(empty when `a ≤ b`). -/
def rangeDown (a b : Int) : List Int :=
  (List.range (a - b).toNat).map (fun k => a - (k : Int))

/-! ## `is_free` (`scheduling/utils.py`)

```python
def is_free(course, mode="rotation", freed=None):
    if (freed is not None) and course in freed and mode == "swap":
        pass                      # <- empty body: the freed check has no effect
    if course is None:
        return False
    return course.is_free
```
The first `if` has an empty body (`pass`), so `mode` and `freed` do not
influence the result. -/

def is_free (course : Option CourseNode) (mode : Mode)
    (freed : List CourseNode) : Bool :=
  -- the `pass` branch of the source is a no-op; `mode` and `freed` are unused
  match mode, freed, course with
  | _, _, none => false
  | _, _, some c => c.is_free

/-- Modelled from the spec and the docstring of `is_free`: a course counts as
free iff it exists and (`is_free` or, in swap mode, it lies in `freed`). -/
def is_free_spec (course : Option CourseNode) (mode : Mode)
    (freed : List CourseNode) : Prop :=
  ∃ c, course = some c ∧ (c.is_free = true ∨ (mode = .swap ∧ c ∈ freed))

/-! ## `find_streak_start_if_free` (`scheduling/utils.py`)

```python
def find_streak_start_if_free(course):
    src_class = list(course.classes.values())[0]
    time = course.time
    for i in range(time.period, 1):       # <- ascending range: empty for period ≥ 1
        candidate = src_class.courses.get(StreakTime(time.weekday, i, time.streak))
        if candidate and candidate.is_free:
            if candidate.time.streak >= (time.period - i) + time.streak:
                return candidate
            else:
                return None
    return None
``` -/

/-- The loop body shared by `find_streak_start_if_free` and its
spec-modelled variant: scan the candidate periods in order; the first
present-and-free entry decides. -/
def fssLoop (cls : ClassNode) (time : StreakTime) : List Int → Option CourseNode
  | [] => none
  | i :: rest =>
    match stLookup cls.courses ⟨time.weekday, i, time.streak⟩ with
    | some cand =>
        if cand.is_free then
          if (time.period - i) + time.streak ≤ cand.time.streak then some cand
          else none
        else fssLoop cls time rest
    | none => fssLoop cls time rest

def find_streak_start_if_free (course : CourseNode) : Except PyErr (Option CourseNode) :=
  match (course.classes.map Prod.snd).head? with
  | none => .error .indexError      -- list(course.classes.values())[0] on empty dict
  | some srcClass =>
      -- `range(time.period, 1)` has step +1 and is empty whenever period ≥ 1
      .ok (fssLoop srcClass course.time (rangeUp course.time.period 1))

/-- Modelled from the spec: `find_streak_start_if_free` is specified to walk
the class's slot map backward from `course.time.period` toward 1 (the sibling
`Scheduling.find_streak_start` uses `range(period, 0, -1)` for this walk),
returning the enclosing free block whose streak covers the queried range. -/
def find_streak_start_spec (course : CourseNode) : Except PyErr (Option CourseNode) :=
  match (course.classes.map Prod.snd).head? with
  | none => .error .indexError
  | some srcClass =>
      .ok (fssLoop srcClass course.time (rangeDown course.time.period 0))

/-! ## `get_1_hop` (`scheduling/utils.py`)

```python
def get_1_hop(src, dst, *, type, mode="rotation", freed=None):
    if type == "fwd":
        src, dst = dst, src
    if freed is None:
        freed = set()
    src_teacher = list(src.teachers.values())[0]
    dst_time = dst.time
    hop_1 = src_teacher.courses.get(dst_time, None)
    if hop_1 is None:
        return None
    if hop_1:                      # pydantic model: always truthy
        if is_free(hop_1, mode=mode, freed=freed):
            if hop_1.time.streak >= dst_time.streak: return hop_1
            else: return None
        else:
            if hop_1.time.streak == dst_time.streak: return hop_1
            else: return None
    else:                          # unreachable: hop_1 is not None, hence truthy
        candidate = find_streak_start_if_free(src)
        if candidate:
            if is_free(candidate, mode=mode, freed=freed): return candidate
            else: return None
        else:
            return None
``` -/

/-- Truthiness of a `CourseNode`: pydantic models define neither `__bool__`
nor `__len__`, so every object is truthy. -/
def courseNodeTruthy (_ : CourseNode) : Bool := true

def get_1_hop (src0 dst0 : CourseNode) (ty : HType) (mode : Mode)
    (freed : List CourseNode) : Except PyErr (Option CourseNode) :=
  let src := if ty = .fwd then dst0 else src0
  let dst := if ty = .fwd then src0 else dst0
  match (src.teachers.map Prod.snd).head? with
  | none => .error .indexError      -- list(src.teachers.values())[0] on empty dict
  | some srcTeacher =>
    let dstTime := dst.time
    match stLookup srcTeacher.courses dstTime with
    | none => .ok none
    | some hop1 =>
      if courseNodeTruthy hop1 then
        if is_free (some hop1) mode freed then
          if dstTime.streak ≤ hop1.time.streak then .ok (some hop1)
          else .ok none
        else
          if hop1.time.streak = dstTime.streak then .ok (some hop1)
          else .ok none
      else
        -- dead in the source: `hop_1` is not `None`, hence truthy
        match find_streak_start_if_free src with
        | .error e => .error e
        | .ok (some candidate) =>
            if is_free (some candidate) mode freed then .ok (some candidate)
            else .ok none
        | .ok none => .ok none

/-! ## Concrete nodes used by the C1–C3 theorems and witnesses -/

/-- A free 2-period block at weekday 1, period 3. -/
def hopFreeNode : CourseNode := .mk ⟨1, 3, 2⟩ true [] []

/-- A teacher whose only registered course is `hopFreeNode`. -/
def hopTeacher : TeacherNode := .mk 7 [(⟨1, 3, 2⟩, hopFreeNode)]

/-- A busy source course taught by `hopTeacher`. -/
def hopSrc : CourseNode := .mk ⟨1, 1, 2⟩ false [(7, hopTeacher)] []

/-- A destination course at weekday 1, period 3, streak 2. -/
def hopDst : CourseNode := .mk ⟨1, 3, 2⟩ false [] []

/-- A busy course node, used to probe `is_free` with a freed set. -/
def busyNode : CourseNode := .mk ⟨1, 1, 1⟩ false [] []

/-- A free 3-period block starting at period 1 of weekday 1. -/
def c3Free : CourseNode := .mk ⟨1, 1, 3⟩ true [] []

/-- The source course as it appears inside its class's slot map. -/
def c3SrcLeaf : CourseNode := .mk ⟨1, 2, 1⟩ false [] []

/-- Class whose slot map holds the free block and the source course. -/
def c3Class : ClassNode := .mk 101 [(⟨1, 1, 3⟩, c3Free), (⟨1, 2, 1⟩, c3SrcLeaf)]

/-- Teacher with no course registered at period 5. -/
def c3Teacher : TeacherNode := .mk 7 [(⟨1, 2, 1⟩, c3SrcLeaf)]

/-- The source course: busy at weekday 1 period 2, class 101, teacher 7. -/
def c3Src : CourseNode := .mk ⟨1, 2, 1⟩ false [(7, c3Teacher)] [(101, c3Class)]

/-- A destination at weekday 1 period 5 (the teacher is free there). -/
def c3Dst : CourseNode := .mk ⟨1, 5, 1⟩ false [] []

/-! ## The virtual-scheduling rotation model
(`tests/test_vitrual_scheduling/model/rotation.py`,
`tests/model/utils.py`, `tests/test_virtual_scheduling/src/node.py`)

In the test model a `CourseNode` is identified by `(teacher.name, time)`
(its `__eq__`/`__hash__`), each teacher holds at most one course per time
(`__post_init__` raises on duplicates), and `neighbors` is a plain list.
We model a node by its identity key and the graph by its attribute maps. -/

/-- Identity of a model course node: `(teacher name, time)` as used by the
model's `__eq__`/`__hash__`. -/
abbrev MKey := Nat × Nat

/-- The virtual-scheduling graph: `is_free` attribute, `neighbors` list and
`teacher.courses.get(time)` lookup per node. -/
structure MGraph where
  isFree : MKey → Bool
  neighbors : MKey → List MKey
  courseAt : Nat → Nat → Option MKey

/-- `get_bwd(src, dst) = src.teacher.courses.get(dst.time)`
(`tests/model/utils.py`). -/
def get_bwd (g : MGraph) (src dst : MKey) : Option MKey :=
  g.courseAt src.1 dst.2

/-- `bwd_check` of `rotation.py`: `course is None or course.is_free`. -/
def bwd_check (g : MGraph) (src dst : MKey) : Bool :=
  match get_bwd g src dst with
  | none => true
  | some c => g.isFree c

/-- The body of `dfs_cycle`.  `fuel = max_depth - depth`; the Python entry
guard `depth >= max_depth` is the `0` case.  For each neighbour in order:
skip if `bwd_check` fails, skip if visited, yield `path + [start]` if the
neighbour is the start, else recurse with the neighbour appended to the
path and added to the visited set. -/
def dfsVisit (g : MGraph) (start : MKey) :
    Nat → MKey → List MKey → List MKey → List (List MKey)
  | 0, _, _, _ => []
  | fuel + 1, current, path, visited =>
    (g.neighbors current).flatMap (fun nxt =>
      if bwd_check g current nxt = false then []
      else if nxt ∈ visited then []
      else if nxt = start then [path ++ [start]]
      else dfsVisit g start fuel nxt (path ++ [nxt]) (nxt :: visited))

/-- `rotation(start, max_depth)` of `rotation.py`: DFS from `start` with
initial path `[start]`, empty visited set and depth `0`. -/
def rotation' (g : MGraph) (start : MKey) (maxDepth : Nat) : List (List MKey) :=
  dfsVisit g start maxDepth start [start] []

/-- Concrete witness graph: teacher 0 busy at time 1 and free at time 2,
teacher 1 free at time 1 and busy at time 2; the two busy nodes are
neighbours of each other. -/
def gW : MGraph where
  isFree := fun k => k = (0, 2) || k = (1, 1)
  neighbors := fun k =>
    if k = (0, 1) then [(1, 2)] else if k = (1, 2) then [(0, 1)] else []
  courseAt := fun t τ => if t ≤ 1 && 1 ≤ τ && τ ≤ 2 then some (t, τ) else none

/-! ## The streak-log builder (`timetable_slot_log/crawler.py`)

```python
def parse(self, raw):
    result = []
    for timetable in raw:
        source = timetable.target
        for day_index, day in enumerate(timetable.table):
            prev_course = None; streak = 1; start_period = 0
            for period_index, course in enumerate(day):
                if period_index == 0:
                    prev_course = course; continue
                if course == prev_course:
                    streak += 1
                else:
                    result.append(log(source, StreakTime(day_index+1, start_period+1, streak), prev_course))
                    streak = 1; start_period = period_index
                prev_course = course
            result.append(log(source, StreakTime(day_index+1, start_period+1, streak), prev_course))
    return result
```
Grid cells (`Optional[CourseInfo]`) are modelled as `Option α` for an
arbitrary type `α` with decidable equality. -/

/-- One `TimetableSlotLog` entry. -/
structure TimetableSlotLogE (α : Type) where
  source : Nat
  streak_time : StreakTime
  log : Option α
deriving DecidableEq, Repr

/-- One `TimeTable` as consumed by the slot-log parser: its `target` and its
`[weekday][period]` grid. -/
structure TimeTableE (α : Type) where
  target : Nat
  table : List (List (Option α))
deriving DecidableEq, Repr

/-- The inner scan of `parse` after the `period_index == 0` iteration:
state `(prev, streak, start_period, period_index)` over the remaining
cells; on a change emit the pending run, at the end flush it. -/
def parseGo {α : Type} [DecidableEq α] (s : Nat) (w : Int) :
    List (Option α) → Option α → Int → Int → Int → List (TimetableSlotLogE α)
  | [], prev, streak, start, _ => [⟨s, ⟨w, start + 1, streak⟩, prev⟩]
  | c :: rest, prev, streak, start, idx =>
    if c = prev then parseGo s w rest c (streak + 1) start (idx + 1)
    else ⟨s, ⟨w, start + 1, streak⟩, prev⟩ :: parseGo s w rest c 1 idx (idx + 1)

/-- One weekday row of `parse`.  An empty row skips the scan entirely and
flushes the initial state `(None, 1, 0)`. -/
def parseDay {α : Type} [DecidableEq α] (s : Nat) (w : Int)
    (day : List (Option α)) : List (TimetableSlotLogE α) :=
  match day with
  | [] => [⟨s, ⟨w, 1, 1⟩, none⟩]
  | c :: rest => parseGo s w rest c 1 0 1

/-- `TimetableSlotLogCrawler.parse`: all rows of all timetables, weekdays
numbered from 1. -/
def parse {α : Type} [DecidableEq α] (raw : List (TimeTableE α)) :
    List (TimetableSlotLogE α) :=
  raw.flatMap (fun tt =>
    tt.table.enum.flatMap (fun p => parseDay tt.target ((p.1 : Int) + 1) p.2))

/-- Prepend a run to a run list, merging with an adjacent equal run. -/
def consRun {α : Type} [DecidableEq α] (c : Option α) (n : Int) :
    List (Option α × Int) → List (Option α × Int)
  | [] => [(c, n)]
  | (d, m) :: t => if c = d then (c, n + m) :: t else (c, n) :: (d, m) :: t

/-- Modelled from the spec: the maximal runs of equal adjacent cells of a
row, in order, with their lengths. -/
def specRuns {α : Type} [DecidableEq α] : List (Option α) → List (Option α × Int)
  | [] => []
  | c :: rest => consRun c 1 (specRuns rest)

/-- Attach start periods to a run list: the first run starts at period `p`,
each next one after the previous run's length. -/
def addStarts {α : Type} (s : Nat) (w : Int) :
    Int → List (Option α × Int) → List (TimetableSlotLogE α)
  | _, [] => []
  | p, (c, n) :: t => ⟨s, ⟨w, p, n⟩, c⟩ :: addStarts s w (p + n) t

/-- Modelled from the spec: one emitted entry per maximal run, keyed by the
run's start period and length, in first-seen order. -/
def specStreaks {α : Type} [DecidableEq α] (s : Nat) (w : Int)
    (day : List (Option α)) : List (TimetableSlotLogE α) :=
  addStarts s w 1 (specRuns day)

/-- Total streak length of a list of emitted entries. -/
def streakSum {α : Type} (l : List (TimetableSlotLogE α)) : Int :=
  (l.map (fun e => e.streak_time.streak)).sum

/-! ## Index derivations (`index/crawler.py`)

`_derive_id_to_info` flattens all `TargetInfo`s into `result[info.id] = info`;
`_derive_name_mappings` runs `process_info` over the same infos:
an already-conflicting name gets the id appended, a name with a unique
mapping is promoted to the conflict table (old id first) and deleted from
the unique table, a fresh name gets a unique mapping.

Display names and ids are `Nat` codes; Python dicts are insertion-ordered
association lists with unique keys. -/

/-- The fields of `TargetInfo` used by the derivations. -/
structure TargetInfo where
  target : Nat
  id : Nat
deriving DecidableEq, Repr

/-- Python `dict.get`: the binding of `k`, if any. -/
def alGet {β : Type} (m : List (Nat × β)) (k : Nat) : Option β :=
  match m with
  | [] => none
  | (k', v) :: rest => if k' = k then some v else alGet rest k

/-- Python `d[k] = v`: update the existing binding in place, else append. -/
def alSet {β : Type} (m : List (Nat × β)) (k : Nat) (v : β) : List (Nat × β) :=
  match m with
  | [] => [(k, v)]
  | (k', v') :: rest =>
      if k' = k then (k, v) :: rest else (k', v') :: alSet rest k v

/-- Python `del d[k]`: drop the binding of `k` (all of them; keys are
unique in every dict built here, so this coincides with deleting the one
binding). -/
def alDel {β : Type} (m : List (Nat × β)) (k : Nat) : List (Nat × β) :=
  match m with
  | [] => []
  | (k', v') :: rest =>
      if k' = k then alDel rest k else (k', v') :: alDel rest k

/-- `process_info` of `_derive_name_mappings`. -/
def process_info (st : List (Nat × TargetInfo) × List (Nat × List Nat))
    (info : TargetInfo) : List (Nat × TargetInfo) × List (Nat × List Nat) :=
  let (uniq, confl) := st
  match alGet confl info.target with
  | some ids => (uniq, alSet confl info.target (ids ++ [info.id]))
  | none =>
    match alGet uniq info.target with
    | some old =>
        (alDel uniq info.target, alSet confl info.target [old.id, info.id])
    | none => (alSet uniq info.target info, confl)

/-- `_derive_name_mappings` over the flattened list of infos: returns
`(target_to_unique_info, target_to_conflicting_ids)`. -/
def derive_name_mappings (infos : List TargetInfo) :
    List (Nat × TargetInfo) × List (Nat × List Nat) :=
  infos.foldl process_info ([], [])

/-- `_derive_id_to_info` over the flattened list of infos. -/
def derive_id_to_info (infos : List TargetInfo) : List (Nat × TargetInfo) :=
  infos.foldl (fun m info => alSet m info.id info) []

/-- Invariant of the `process_info` fold: the two name maps have disjoint
keys, every conflict list has at least two entries all drawn from the seen
ids, and every unique entry's id was seen. -/
def NMInv (uniq : List (Nat × TargetInfo)) (confl : List (Nat × List Nat))
    (seen : List Nat) : Prop :=
  (∀ t, alGet uniq t = none ∨ alGet confl t = none)
  ∧ (∀ t ids, alGet confl t = some ids →
      2 ≤ ids.length ∧ ∀ i ∈ ids, i ∈ seen)
  ∧ (∀ t info, alGet uniq t = some info → info.id ∈ seen)

/-! ## `Scheduling` façade (`scheduling/scheduling.py`)

```python
def find_streak_start(self, node, streak_time):
    time = streak_time
    courses = node.courses
    for i in range(time.period, 0, -1):
        candidate = courses.get(StreakTime(time.weekday, i, time.streak))
        if candidate:
            return candidate
    return None

async def fetch_course_node(self, teacher_name, weekday, period, refresh=False):
    streak_time = StreakTime(weekday, period, streak=1)   # Todo: streak要用算的
    teacher = node_dicts.teacher_nodes.root.get(teacher_name, None)
    if not teacher:
        raise ValueError(...)
    return self.find_streak_start(teacher, streak_time)
```
The cache plumbing (`NodeDicts.fetch`) is elided; the teacher dictionary is
a parameter. -/

/-- Errors raised by `fetch_course_node`. -/
inductive SchedErr where
  | teacherNotFound
deriving DecidableEq, Repr

/-- The loop of `Scheduling.find_streak_start`: first present entry wins,
free or busy, with no check that its streak covers the queried period. -/
def sfssLoop (courses : List (StreakTime × CourseNode)) (time : StreakTime) :
    List Int → Option CourseNode
  | [] => none
  | i :: rest =>
    match stLookup courses ⟨time.weekday, i, time.streak⟩ with
    | some c => some c
    | none => sfssLoop courses time rest

/-- `Scheduling.find_streak_start`. -/
def sched_find_streak_start (courses : List (StreakTime × CourseNode))
    (time : StreakTime) : Option CourseNode :=
  sfssLoop courses time (rangeDown time.period 0)

/-- `Scheduling.fetch_course_node`: raise on an unknown teacher, else return
whatever `find_streak_start` finds (possibly `None`) — there is no
free-period check on this path. -/
def fetch_course_node (teacherDict : List (Nat × TeacherNode))
    (teacher_name : Nat) (weekday period : Int) :
    Except SchedErr (Option CourseNode) :=
  match alGet teacherDict teacher_name with
  | none => .error .teacherNotFound
  | some T => .ok (sched_find_streak_start T.courses ⟨weekday, period, 1⟩)

/-- Busy course of teacher 7 at weekday 1, period 1, streak 1. -/
def c7Busy : CourseNode := .mk ⟨1, 1, 1⟩ false [] []

/-- Teacher 7 with a single busy course at period 1; periods 2–8 of
weekday 1 are free periods for this teacher. -/
def c7Teacher : TeacherNode := .mk 7 [(⟨1, 1, 1⟩, c7Busy)]

/-! ## The timetable cache (`timetable/cache.py`)

`fetch_from_file` wraps the read/parse/validate in `try/except` and returns
`None` on any failure; `save_to_file` re-raises write failures as
`FetchError`; `fetch` reads memory, then file, then source, writing the
source result to file and memory.  The HTTP tier is abstracted as the value
it would produce. -/

/-- State of the on-disk cache file: missing, unreadable/unparsable, or
holding a valid payload. -/
inductive FileState (α : Type) where
  | absent
  | corrupt
  | valid (a : α)
deriving DecidableEq, Repr

/-- Error surfaced by the cache layer. -/
inductive CacheErr where
  | cacheWrite
deriving DecidableEq, Repr

/-- `fetch_from_file`: `None` for a missing file and for any exception
while reading, JSON-decoding or validating it. -/
def fetch_from_file {α : Type} : FileState α → Option α
  | .absent => none
  | .corrupt => none
  | .valid a => some a

/-- `save_to_file`: write the payload, raising a cache-write error when the
filesystem write fails. -/
def save_to_file {α : Type} (data : α) (writeOk : Bool) :
    Except CacheErr (FileState α) :=
  if writeOk then .ok (.valid data) else .error .cacheWrite

/-- Result of a `fetch`: the returned payload plus the memory and file
tiers after the call. -/
structure CacheOutcome (α : Type) where
  value : α
  memAfter : Option α
  fileAfter : FileState α
deriving DecidableEq, Repr

/-- `TimeTableCache.fetch` for a resolved target: skip memory and file when
`refresh` is set; otherwise return the memory hit, else the file hit
(populating memory), else fetch from source, write the file and memory. -/
def cache_fetch {α : Type} (refresh : Bool) (mem : Option α)
    (file : FileState α) (net : α) (writeOk : Bool) :
    Except CacheErr (CacheOutcome α) :=
  match (if refresh then none else mem) with
  | some m => .ok ⟨m, mem, file⟩
  | none =>
    match (if refresh then none else fetch_from_file file) with
    | some f => .ok ⟨f, some f, file⟩
    | none =>
      match save_to_file net writeOk with
      | .error e => .error e
      | .ok newFile => .ok ⟨net, some net, newFile⟩

/-! ## The key identifier (`index/identify_index_key.py`)

`identify_type(text, class_code_len=3, ...)` classifies a user key.  The
embedding works on the text after URL normalisation (stripping the scheme,
base URL and `.html` suffix); `origLen` is the length of the raw input,
which the guard `if not text or origin_text_len < 2` inspects.  Characters
are classified as Latin letters (`lat`, code 0 = `T`, code 1 = `C`),
digits (`dig`), CJK/Han characters (`han`) or anything else (`oth`);
`class_code_len` is the default 3.  Every id the function emits is
alphanumeric, so URL normalisation is the identity on re-submitted ids. -/

/-- A classified character of the input alphabet. -/
inductive Ch where
  | lat (n : Nat)
  | dig (n : Nat)
  | han (n : Nat)
  | oth (n : Nat)
deriving DecidableEq, Repr

/-- The letter `T`. -/
def chT : Ch := .lat 0

/-- The letter `C`. -/
def chC : Ch := .lat 1

def Ch.isLat : Ch → Bool
  | .lat _ => true
  | _ => false

def Ch.isDig : Ch → Bool
  | .dig _ => true
  | _ => false

def Ch.isHan : Ch → Bool
  | .han _ => true
  | _ => false

/-- Membership in the character class `[A-Za-z\p{Han}]`. -/
def Ch.isLatHan : Ch → Bool
  | .lat _ => true
  | .han _ => true
  | _ => false

/-- `role` of an identification result. -/
inductive Role where
  | teacher
  | class_
deriving DecidableEq, Repr

/-- `match_case` of an identification result. -/
inductive MatchCase where
  | T1a | T1b | T2 | T3 | T4 | T5 | T6a | T6b | T6c | T6d | fallback
  | C1 | C2 | C3 | C4 | C5 | C6
deriving DecidableEq, Repr

/-- `IdentificationResult`. -/
structure IdResult where
  role : Role
  matchCase : Option MatchCase
  target : Option (List Ch)
  ID : Option (List Ch)
deriving DecidableEq, Repr

/-- The `role == 'T'` branch: split the body greedily as
`^([A-Za-z]*)(\d*)([A-Za-z\p{Han}]*)$` and dispatch on which of the three
groups are nonempty, exactly as the Python `match` statement does. -/
def identifyT (body : List Ch) : Option IdResult :=
  let p := body.takeWhile Ch.isLat
  let rest := body.dropWhile Ch.isLat
  let s := rest.takeWhile Ch.isDig
  let t := rest.dropWhile Ch.isDig
  if t.all Ch.isLatHan = false then none    -- the anchored regex fails to match
  -- Python `match (bool(prefix), bool(suffix), bool(target))`, case by case:
  else if p.isEmpty = false ∧ s.isEmpty = false ∧ t.isEmpty = false then
    -- (True, True, True) — T4: T + ID + name
    if t.all Ch.isHan then
      some ⟨.teacher, some .T4, some t, some (chT :: (p ++ s))⟩
    else none
  else if p.isEmpty = false ∧ s.isEmpty = false ∧ t.isEmpty = true then
    -- (True, True, False) — T5: T + ID
    some ⟨.teacher, some .T5, none, some (chT :: (p ++ s))⟩
  else if p.isEmpty = true ∧ s.isEmpty = false ∧ t.isEmpty = true then
    -- (False, True, False) — fallback: ID = "T" + "T" + suffix
    some ⟨.teacher, some .fallback, none, some (chT :: chT :: s)⟩
  else if p.isEmpty = false ∧ s.isEmpty = true ∧ t.isEmpty = true then
    -- (True, False, False) — T6a: T + latin name
    if p.all Ch.isLat then some ⟨.teacher, some .T6a, some p, none⟩
    else none                               -- `raise KeyError` (p is a latin run)
  else if p.isEmpty = true ∧ s.isEmpty = true ∧ t.isEmpty = false then
    -- (False, False, True) — T6b / T6d
    if t.all Ch.isHan then some ⟨.teacher, some .T6b, some t, none⟩
    else if t.any Ch.isHan && t.any Ch.isLat then
      some ⟨.teacher, some .T6d, some (t.filter Ch.isLat), none⟩
    else none
  else if p.isEmpty = false ∧ s.isEmpty = true ∧ t.isEmpty = false then
    -- (True, False, True) — T6c / T6d
    if t.all Ch.isHan && p.all Ch.isLat then
      some ⟨.teacher, some .T6c, some p, none⟩
    else if p.all Ch.isHan && t.all Ch.isLat then
      some ⟨.teacher, some .T6d, some t, none⟩
    else none                               -- the `raise` is unreachable
  else none                                 -- no `case` arm matches

/-- The `role == 'C'` branch: C5 (`C` + 6 digits), C6 (`C` + 3 digits),
C4 (`C` + repeated class code, 7+ digits), else the illegal C8 case. -/
def identifyC (body : List Ch) : Option IdResult :=
  if body.all Ch.isDig && body.length == 6 then
    some ⟨.class_, some .C5, some (body.drop 3), some (chC :: body)⟩
  else if body.all Ch.isDig && body.length == 3 then
    some ⟨.class_, some .C6, some body, none⟩
  else if body.all Ch.isDig && 7 ≤ body.length then
    some ⟨.class_, some .C4, some (body.drop (body.length - 3)),
          some (chC :: body.take (body.length - 3))⟩
  else none

/-- The prefix-less branch: T2 (`latin+ digit+ han+`), T3 (`latin+ digit+`),
C1 (3 digits), C3 (6 digits), C2 (7+ digits), else the illegal T8 case. -/
def identifyNoPrefix (text : List Ch) : Option IdResult :=
  let L := text.takeWhile Ch.isLat
  let r1 := text.dropWhile Ch.isLat
  let D := r1.takeWhile Ch.isDig
  let H := r1.dropWhile Ch.isDig
  if !L.isEmpty && !D.isEmpty && !H.isEmpty && H.all Ch.isHan then
    some ⟨.teacher, some .T2, some H, some (chT :: (L ++ D))⟩
  else if !L.isEmpty && !D.isEmpty && H.isEmpty then
    some ⟨.teacher, some .T3, none, some (chT :: text)⟩
  else if text.all Ch.isDig && text.length == 3 then
    some ⟨.class_, some .C1, some text, none⟩
  else if text.all Ch.isDig && text.length == 6 then
    some ⟨.class_, some .C3, some (text.drop 3), some (chC :: text)⟩
  else if text.all Ch.isDig && 7 ≤ text.length then
    some ⟨.class_, some .C2, some (text.drop (text.length - 3)),
          some (chC :: text.take (text.length - 3))⟩
  else none

/-- `identify_type` on the normalised text.  The raw-length guard comes
first; an input that normalises to the empty string makes `text[0]` raise,
modelled as no result; then the pure-Latin (T1a) and pure-Han (T1b) name
checks, then dispatch on the `T`/`C` prefix. -/
def identify_type (origLen : Nat) (text : List Ch) : Option IdResult :=
  if origLen < 2 then none
  else if text.isEmpty then none            -- `text[0]` raises IndexError
  else if text.all Ch.isLat then some ⟨.teacher, some .T1a, some text, none⟩
  else if text.all Ch.isHan then some ⟨.teacher, some .T1b, some text, none⟩
  else if text.head? = some chT then identifyT (text.drop 1)
  else if text.head? = some chC then identifyC (text.drop 1)
  else identifyNoPrefix text

/-! ## Theorems for claims C1, C2, C3 -/

/-- C1: when `src` has exactly one teacher and that teacher has a course `h`
registered at `dst.time`, `get_1_hop(src, dst, bwd, mode, freed)` returns `h`
iff `h` is free (under `mode`/`freed`) and `h.streak ≥ dst.time.streak`, or
`h` is busy and `h.streak = dst.time.streak`; otherwise it returns `None`. -/
theorem C1_get_1_hop_streak_fit
    (src dst : CourseNode) (mode : Mode) (freed : List CourseNode)
    (tn : Nat) (T : TeacherNode) (h : CourseNode)
    (hT : src.teachers = [(tn, T)])
    (hh : stLookup T.courses dst.time = some h) :
    (is_free (some h) mode freed = true →
      get_1_hop src dst .bwd mode freed =
        .ok (if dst.time.streak ≤ h.time.streak then some h else none))
    ∧ (is_free (some h) mode freed = false →
      get_1_hop src dst .bwd mode freed =
        .ok (if h.time.streak = dst.time.streak then some h else none)) := by
  constructor <;> intro hf <;>
    (simp [get_1_hop, hT, hh, courseNodeTruthy, hf]; split <;> rfl)

/-- C1 witness: a concrete free destination block of sufficient streak is
returned by `get_1_hop`. -/
theorem C1_get_1_hop_streak_fit_witness :
    get_1_hop hopSrc hopDst .bwd .rotation [] =
      .ok (if hopDst.time.streak ≤ hopFreeNode.time.streak then some hopFreeNode
           else none) :=
  (C1_get_1_hop_streak_fit hopSrc hopDst .rotation [] 7 hopTeacher hopFreeNode
    rfl rfl).1 rfl

/-- C2: the code disagrees with its own docstring and the spec. `is_free`'s
freed-set branch is an empty `pass`, so in swap mode a busy node lying in
`freed` is still reported busy, while the documented behaviour
(`is_free_spec`) counts it free. -/
theorem C2_is_free_freed_ignored :
    is_free (some busyNode) .swap [busyNode] = false
    ∧ is_free_spec (some busyNode) .swap [busyNode] :=
  ⟨rfl, ⟨busyNode, rfl, Or.inr ⟨rfl, List.Mem.head _⟩⟩⟩

/-- C3: the code never performs the specified backward walk. With the
teacher unregistered at `dst.time`, `get_1_hop` returns `None` without
consulting the class, and `find_streak_start_if_free` always returns `None`
because `range(period, 1)` is empty, even though the spec-modelled backward
walk finds the enclosing free block `c3Free`. -/
theorem C3_backward_walk_dead :
    find_streak_start_if_free c3Src = .ok none
    ∧ get_1_hop c3Src c3Dst .bwd .rotation [] = .ok none
    ∧ find_streak_start_spec c3Src = .ok (some c3Free) :=
  ⟨rfl, rfl, rfl⟩

/-! ## Theorems for claims C4 and C10 -/

/-- Soundness invariant of `dfs_cycle`: starting from a path `start :: nt`
whose last node is the current node, every yielded path is the current path
plus a final `start`, every consecutive pair passes `bwd_check`, and the
interior nodes are distinct, distinct from `start`, and recorded in the
visited set. -/
lemma dfsVisit_sound (g : MGraph) (start : MKey) :
    ∀ (fuel : Nat) (current : MKey) (nt visited : List MKey),
      (start :: nt).getLast? = some current →
      List.Chain' (fun a b => bwd_check g a b = true) (start :: nt) →
      nt.Nodup → start ∉ nt → (∀ x ∈ nt, x ∈ visited) →
      ∀ P ∈ dfsVisit g start fuel current (start :: nt) visited,
        ∃ u, P = start :: (u ++ [start])
          ∧ List.Chain' (fun a b => bwd_check g a b = true) P
          ∧ u.Nodup ∧ start ∉ u := by
  intro fuel
  induction fuel with
  | zero =>
    intro current nt visited _ _ _ _ _ P hP
    simp [dfsVisit] at hP
  | succ fuel ih =>
    intro current nt visited hlast hchain hnd hns hsub P hP
    rw [dfsVisit, List.mem_flatMap] at hP
    obtain ⟨nxt, hnmem, hP⟩ := hP
    by_cases hbwd : bwd_check g current nxt = false
    · simp [hbwd] at hP
    · rw [if_neg hbwd] at hP
      have hbwd' : bwd_check g current nxt = true := by
        revert hbwd; cases bwd_check g current nxt <;> simp
      by_cases hvis : nxt ∈ visited
      · rw [if_pos hvis] at hP; simp at hP
      · rw [if_neg hvis] at hP
        by_cases hstart : nxt = start
        · rw [if_pos hstart] at hP
          rw [List.mem_singleton] at hP
          subst hP
          refine ⟨nt, rfl, ?_, hnd, hns⟩
          refine List.Chain'.append hchain (List.chain'_singleton start) ?_
          intro x hx y hy
          rw [hlast, Option.mem_some_iff] at hx
          simp only [List.head?_cons, Option.mem_some_iff] at hy
          subst hx; subst hy
          rw [← hstart]; exact hbwd'
        · rw [if_neg hstart] at hP
          refine ih nxt (nt ++ [nxt]) (nxt :: visited) ?_ ?_ ?_ ?_ ?_ P hP
          · rw [show start :: (nt ++ [nxt]) = (start :: nt) ++ [nxt] from rfl]
            exact List.getLast?_concat _
          · refine List.Chain'.append hchain (List.chain'_singleton nxt) ?_
            intro x hx y hy
            rw [hlast, Option.mem_some_iff] at hx
            simp only [List.head?_cons, Option.mem_some_iff] at hy
            subst hx; subst hy; exact hbwd'
          · rw [List.nodup_append]
            refine ⟨hnd, List.nodup_singleton nxt, ?_⟩
            intro a ha hb
            rw [List.mem_singleton] at hb
            subst hb
            exact hvis (hsub a ha)
          · rw [List.mem_append, List.mem_singleton]
            rintro (h | h)
            · exact hns h
            · exact hstart h.symm
          · intro x hx
            rw [List.mem_append, List.mem_singleton] at hx
            rcases hx with h | h
            · exact List.mem_cons_of_mem _ (hsub x h)
            · subst h; exact List.mem_cons_self _ _

/-- C4: every path yielded by `rotation(start, max_depth)` starts and ends at
`start`, and every consecutive pair of nodes on it passes the backward
one-hop feasibility check `bwd_check`. -/
theorem C4_rotation_closure (g : MGraph) (start : MKey) (maxDepth : Nat)
    (P : List MKey) (hP : P ∈ rotation' g start maxDepth) :
    P.head? = some start ∧ P.getLast? = some start
    ∧ List.Chain' (fun a b => bwd_check g a b = true) P := by
  obtain ⟨u, hu, hc, _, _⟩ :=
    dfsVisit_sound g start maxDepth start [] [] (by simp) (by simp)
      List.nodup_nil (by simp) (by simp) P hP
  subst hu
  refine ⟨rfl, ?_, hc⟩
  rw [show start :: (u ++ [start]) = (start :: u) ++ [start] from rfl]
  exact List.getLast?_concat _

/-- C4 witness: in the concrete graph `gW`, the yielded cycle
`a1 → b2 → a1` starts and ends at the start node and passes `bwd_check`
on both edges. -/
theorem C4_rotation_closure_witness :
    ([((0 : Nat), (1 : Nat)), (1, 2), (0, 1)] : List MKey).head? = some (0, 1)
    ∧ ([((0 : Nat), (1 : Nat)), (1, 2), (0, 1)] : List MKey).getLast? = some (0, 1)
    ∧ List.Chain' (fun a b => bwd_check gW a b = true)
        ([((0 : Nat), (1 : Nat)), (1, 2), (0, 1)] : List MKey) :=
  C4_rotation_closure gW (0, 1) 5 [(0, 1), (1, 2), (0, 1)] (by decide)

/-- C10: in every path yielded by `rotation`, the interior nodes (everything
strictly between the repeated `start` endpoints) are pairwise distinct and
none of them equals `start`. -/
theorem C10_rotation_interior_nodup (g : MGraph) (start : MKey) (maxDepth : Nat)
    (P : List MKey) (hP : P ∈ rotation' g start maxDepth) :
    ∃ u, P = start :: (u ++ [start]) ∧ u.Nodup ∧ start ∉ u := by
  obtain ⟨u, hu, _, hn, hs⟩ :=
    dfsVisit_sound g start maxDepth start [] [] (by simp) (by simp)
      List.nodup_nil (by simp) (by simp) P hP
  exact ⟨u, hu, hn, hs⟩

/-- C10 witness: the concrete cycle yielded in `gW` decomposes as
`start :: interior ++ [start]` with duplicate-free interior avoiding
`start`. -/
theorem C10_rotation_interior_nodup_witness :
    ∃ u, ([((0 : Nat), (1 : Nat)), (1, 2), (0, 1)] : List MKey)
        = (0, 1) :: (u ++ [(0, 1)]) ∧ u.Nodup ∧ ((0 : Nat), (1 : Nat)) ∉ u :=
  C10_rotation_interior_nodup gW (0, 1) 5 [(0, 1), (1, 2), (0, 1)] (by decide)

/-! ## Theorems for claim C5 -/

/-- Merging two adjacent runs of the same value adds their lengths. -/
lemma consRun_consRun {α : Type} [DecidableEq α] (c : Option α) (n m : Int)
    (R : List (Option α × Int)) :
    consRun c n (consRun c m R) = consRun c (n + m) R := by
  cases R with
  | nil => simp [consRun, add_assoc]
  | cons hd t =>
    obtain ⟨d, k⟩ := hd
    by_cases hcd : c = d
    · subst hcd
      simp [consRun, add_assoc]
    · simp [consRun, hcd]

/-- Prepending a run of a different value never merges. -/
lemma consRun_ne {α : Type} [DecidableEq α] {c prev : Option α}
    (h : c ≠ prev) (k j : Int) (R : List (Option α × Int)) :
    consRun prev k (consRun c j R) = (prev, k) :: consRun c j R := by
  have h' : prev ≠ c := fun hpc => h hpc.symm
  cases R with
  | nil => simp [consRun, h']
  | cons hd t =>
    obtain ⟨d, m⟩ := hd
    by_cases hcd : c = d
    · subst hcd
      simp [consRun, h']
    · simp [consRun, hcd, h']

/-- The inner scan emits exactly the maximal runs of the remaining cells,
merged with the pending run, with start periods counted from the pending
run's start. -/
lemma parseGo_eq {α : Type} [DecidableEq α] (s : Nat) (w : Int) :
    ∀ (rest : List (Option α)) (prev : Option α) (streak start idx : Int),
      idx = start + streak →
      parseGo s w rest prev streak start idx
        = addStarts s w (start + 1) (consRun prev streak (specRuns rest)) := by
  intro rest
  induction rest with
  | nil =>
    intro prev streak start idx _
    simp [parseGo, specRuns, consRun, addStarts]
  | cons c r' ih =>
    intro prev streak start idx hidx
    by_cases h : c = prev
    · subst h
      rw [parseGo, if_pos rfl, ih c (streak + 1) start (idx + 1) (by omega)]
      rw [specRuns, consRun_consRun]
    · rw [parseGo, if_neg h, ih c 1 idx (idx + 1) rfl]
      rw [specRuns, consRun_ne h, addStarts]
      rw [show idx + 1 = start + 1 + streak from by omega]

/-- `streakSum` after attaching start periods is the total run length. -/
lemma streakSum_addStarts {α : Type} (s : Nat) (w : Int) :
    ∀ (R : List (Option α × Int)) (p : Int),
      streakSum (addStarts s w p R) = (R.map Prod.snd).sum := by
  intro R
  induction R with
  | nil => intro p; rfl
  | cons hd t ih =>
    intro p
    obtain ⟨c, n⟩ := hd
    have htail := ih (p + n)
    simp only [addStarts, streakSum, List.map_cons, List.sum_cons] at htail ⊢
    omega

/-- Prepending a run adds its length to the total. -/
lemma sum_consRun {α : Type} [DecidableEq α] (c : Option α) (n : Int)
    (R : List (Option α × Int)) :
    ((consRun c n R).map Prod.snd).sum = n + (R.map Prod.snd).sum := by
  cases R with
  | nil => simp [consRun]
  | cons hd t =>
    obtain ⟨d, m⟩ := hd
    by_cases hcd : c = d
    · simp [consRun, hcd, add_assoc]
    · simp [consRun, hcd]

/-- The maximal runs of a row sum to the row length. -/
lemma sum_specRuns {α : Type} [DecidableEq α] :
    ∀ (day : List (Option α)),
      ((specRuns day).map Prod.snd).sum = day.length := by
  intro day
  induction day with
  | nil => rfl
  | cons c rest ih =>
    rw [specRuns, sum_consRun, ih]
    simp
    omega

/-- C5 (amended: nonempty rows): for every nonempty weekday row, the
streak-log builder emits exactly the maximal runs of equal adjacent cells,
keyed by start period and length in first-seen order, and the emitted
streak lengths sum to the row length. -/
theorem C5_parse_runs {α : Type} [DecidableEq α] (s : Nat) (w : Int)
    (day : List (Option α)) (hne : day ≠ []) :
    parseDay s w day = specStreaks s w day
    ∧ streakSum (parseDay s w day) = day.length := by
  obtain ⟨c, rest, rfl⟩ := List.exists_cons_of_ne_nil hne
  have hmain : parseDay s w (c :: rest) = specStreaks s w (c :: rest) := by
    show parseGo s w rest c 1 0 1 = specStreaks s w (c :: rest)
    rw [parseGo_eq s w rest c 1 0 1 (by omega)]
    rfl
  refine ⟨hmain, ?_⟩
  rw [hmain]
  rw [show specStreaks s w (c :: rest) = addStarts s w 1 (specRuns (c :: rest)) from rfl]
  rw [streakSum_addStarts, sum_specRuns]

/-- C5 witness: a concrete three-cell row with a double lesson and a free
period yields the two expected runs summing to the row length. -/
theorem C5_parse_runs_witness :
    (parseDay 5 1 [some 1, some 1, none] : List (TimetableSlotLogE Nat))
        = specStreaks 5 1 [some 1, some 1, none]
    ∧ streakSum (parseDay 5 1 ([some 1, some 1, none] : List (Option Nat)))
        = ([some (1 : Nat), some 1, none] : List (Option Nat)).length :=
  C5_parse_runs 5 1 [some 1, some 1, none] (by simp)

/-- C5 counterexample to the claim as stated: on an empty weekday row the
parser flushes the initial state and emits one spurious streak of length 1
with value `None`, so the emitted streak lengths sum to 1, not to the row
length 0. -/
theorem C5_empty_row_counterexample :
    parse ([⟨200, [[]]⟩] : List (TimeTableE Nat)) = [⟨200, ⟨1, 1, 1⟩, none⟩]
    ∧ streakSum (parse ([⟨200, [[]]⟩] : List (TimeTableE Nat)))
        ≠ (([] : List (Option Nat)).length : Int) :=
  ⟨by decide, by decide⟩

/-! ## Theorems for claim C6 -/

lemma alGet_alSet_self {β : Type} (m : List (Nat × β)) (k : Nat) (v : β) :
    alGet (alSet m k v) k = some v := by
  induction m with
  | nil => simp [alGet, alSet]
  | cons hd rest ih =>
    obtain ⟨k', v'⟩ := hd
    by_cases h : k' = k
    · simp [alSet, alGet, h]
    · simp [alSet, alGet, h, ih]

lemma alGet_alSet_ne {β : Type} (m : List (Nat × β)) {k k' : Nat} (v : β)
    (h : k' ≠ k) : alGet (alSet m k v) k' = alGet m k' := by
  have hkk : k ≠ k' := Ne.symm h
  induction m with
  | nil => simp [alGet, alSet, hkk]
  | cons hd rest ih =>
    obtain ⟨k₀, v₀⟩ := hd
    by_cases h0 : k₀ = k
    · subst h0
      simp [alSet, alGet, hkk]
    · simp only [alSet, if_neg h0, alGet]
      by_cases h1 : k₀ = k'
      · simp [h1]
      · simp [h1, ih]

lemma alGet_alDel_self {β : Type} (m : List (Nat × β)) (k : Nat) :
    alGet (alDel m k) k = none := by
  induction m with
  | nil => simp [alGet, alDel]
  | cons hd rest ih =>
    obtain ⟨k', v'⟩ := hd
    by_cases h : k' = k
    · simp [alDel, h, ih]
    · simp [alDel, alGet, h, ih]

lemma alGet_alDel_ne {β : Type} (m : List (Nat × β)) {k k' : Nat}
    (h : k' ≠ k) : alGet (alDel m k) k' = alGet m k' := by
  have hkk : k ≠ k' := Ne.symm h
  induction m with
  | nil => simp [alDel]
  | cons hd rest ih =>
    obtain ⟨k₀, v₀⟩ := hd
    by_cases h0 : k₀ = k
    · subst h0
      simp [alDel, alGet, hkk, ih]
    · simp only [alDel, if_neg h0, alGet]
      by_cases h1 : k₀ = k'
      · simp [h1]
      · simp [h1, ih]

/-- `NMInv` is monotone in the seen-id list. -/
lemma NMInv_mono {uniq confl seen seen'}
    (h : NMInv uniq confl seen) (hsub : ∀ i ∈ seen, i ∈ seen') :
    NMInv uniq confl seen' := by
  obtain ⟨h1, h2, h3⟩ := h
  refine ⟨h1, fun t ids hids => ?_, fun t info hinfo => hsub _ (h3 t info hinfo)⟩
  obtain ⟨hlen, hall⟩ := h2 t ids hids
  exact ⟨hlen, fun i hi => hsub _ (hall i hi)⟩

/-- One `process_info` step preserves the invariant, the new id now seen. -/
lemma NMInv_step {uniq confl seen} (info : TargetInfo)
    (h : NMInv uniq confl seen) :
    NMInv (process_info (uniq, confl) info).1 (process_info (uniq, confl) info).2
      (seen ++ [info.id]) := by
  obtain ⟨h1, h2, h3⟩ := h
  have hseen : ∀ i ∈ seen, i ∈ seen ++ [info.id] :=
    fun i hi => List.mem_append_left _ hi
  have hnew : info.id ∈ seen ++ [info.id] :=
    List.mem_append_right _ (List.mem_singleton.mpr rfl)
  match hc : alGet confl info.target with
  | some ids =>
    simp only [process_info, hc]
    refine ⟨fun t => ?_, fun t ids' hids' => ?_, fun t i hi => hseen _ (h3 t i hi)⟩
    · by_cases ht : t = info.target
      · subst ht
        rcases h1 info.target with hu | hcc
        · exact Or.inl hu
        · rw [hcc] at hc; cases hc
      · rcases h1 t with hu | hcc
        · exact Or.inl hu
        · exact Or.inr (by rw [alGet_alSet_ne _ _ ht]; exact hcc)
    · by_cases ht : t = info.target
      · subst ht
        rw [alGet_alSet_self] at hids'
        obtain ⟨hlen, hall⟩ := h2 info.target ids hc
        obtain rfl := Option.some_inj.mp hids'
        constructor
        · simp only [List.length_append, List.length_singleton]; omega
        · intro i hi
          rcases List.mem_append.mp hi with hi | hi
          · exact hseen _ (hall i hi)
          · rw [List.mem_singleton] at hi; subst hi; exact hnew
      · rw [alGet_alSet_ne _ _ ht] at hids'
        obtain ⟨hlen, hall⟩ := h2 t ids' hids'
        exact ⟨hlen, fun i hi => hseen _ (hall i hi)⟩
  | none =>
    match hu : alGet uniq info.target with
    | some old =>
      simp only [process_info, hc, hu]
      refine ⟨fun t => ?_, fun t ids' hids' => ?_, fun t i hi => ?_⟩
      · by_cases ht : t = info.target
        · subst ht; exact Or.inl (alGet_alDel_self _ _)
        · rcases h1 t with h' | h'
          · exact Or.inl (by rw [alGet_alDel_ne _ ht]; exact h')
          · exact Or.inr (by rw [alGet_alSet_ne _ _ ht]; exact h')
      · by_cases ht : t = info.target
        · subst ht
          rw [alGet_alSet_self] at hids'
          obtain rfl := Option.some_inj.mp hids'
          refine ⟨by simp, fun i hi => ?_⟩
          rcases List.mem_cons.mp hi with hi | hi
          · subst hi; exact hseen _ (h3 _ old hu)
          · rw [List.mem_singleton] at hi; subst hi; exact hnew
        · rw [alGet_alSet_ne _ _ ht] at hids'
          obtain ⟨hlen, hall⟩ := h2 t ids' hids'
          exact ⟨hlen, fun i hi' => hseen _ (hall i hi')⟩
      · by_cases ht : t = info.target
        · subst ht; rw [alGet_alDel_self] at hi; cases hi
        · rw [alGet_alDel_ne _ ht] at hi; exact hseen _ (h3 t i hi)
    | none =>
      simp only [process_info, hc, hu]
      refine ⟨fun t => ?_, fun t ids' hids' => ?_, fun t i hi => ?_⟩
      · by_cases ht : t = info.target
        · subst ht; exact Or.inr hc
        · rcases h1 t with h' | h'
          · exact Or.inl (by rw [alGet_alSet_ne _ _ ht]; exact h')
          · exact Or.inr h'
      · obtain ⟨hlen, hall⟩ := h2 t ids' hids'
        exact ⟨hlen, fun i hi' => hseen _ (hall i hi')⟩
      · by_cases ht : t = info.target
        · subst ht
          rw [alGet_alSet_self] at hi
          obtain rfl := Option.some_inj.mp hi
          exact hnew
        · rw [alGet_alSet_ne _ _ ht] at hi
          exact hseen _ (h3 t i hi)

/-- The whole fold preserves the invariant. -/
lemma NMInv_fold :
    ∀ (infos : List TargetInfo) (uniq : List (Nat × TargetInfo))
      (confl : List (Nat × List Nat)) (seen : List Nat),
      NMInv uniq confl seen →
      NMInv (infos.foldl process_info (uniq, confl)).1
        (infos.foldl process_info (uniq, confl)).2
        (seen ++ infos.map (fun i => i.id)) := by
  intro infos
  induction infos with
  | nil => intro uniq confl seen h; simpa using h
  | cons info rest ih =>
    intro uniq confl seen h
    have hstep := NMInv_step info h
    have := ih (process_info (uniq, confl) info).1
      (process_info (uniq, confl) info).2 (seen ++ [info.id]) hstep
    simpa [List.append_assoc] using this

/-- A target once present in either name map stays present after a step. -/
lemma nm_present_step {uniq confl} (info : TargetInfo) (t : Nat)
    (h : (alGet uniq t).isSome = true ∨ (alGet confl t).isSome = true) :
    (alGet (process_info (uniq, confl) info).1 t).isSome = true
    ∨ (alGet (process_info (uniq, confl) info).2 t).isSome = true := by
  by_cases ht : t = info.target
  · subst ht
    match hc : alGet confl info.target with
    | some ids =>
      simp only [process_info, hc]
      exact Or.inr (by rw [alGet_alSet_self]; rfl)
    | none =>
      match hu : alGet uniq info.target with
      | some old =>
        simp only [process_info, hc, hu]
        exact Or.inr (by rw [alGet_alSet_self]; rfl)
      | none =>
        simp only [process_info, hc, hu]
        exact Or.inl (by rw [alGet_alSet_self]; rfl)
  · match hc : alGet confl info.target with
    | some ids =>
      simp only [process_info, hc]
      rcases h with h | h
      · exact Or.inl h
      · exact Or.inr (by rw [alGet_alSet_ne _ _ ht]; exact h)
    | none =>
      match hu : alGet uniq info.target with
      | some old =>
        simp only [process_info, hc, hu]
        rcases h with h | h
        · exact Or.inl (by rw [alGet_alDel_ne _ ht]; exact h)
        · exact Or.inr (by rw [alGet_alSet_ne _ _ ht]; exact h)
      | none =>
        simp only [process_info, hc, hu]
        rcases h with h | h
        · exact Or.inl (by rw [alGet_alSet_ne _ _ ht]; exact h)
        · exact Or.inr h

/-- A target once present stays present through the rest of the fold. -/
lemma nm_present_fold :
    ∀ (infos : List TargetInfo) (uniq : List (Nat × TargetInfo))
      (confl : List (Nat × List Nat)) (t : Nat),
      ((alGet uniq t).isSome = true ∨ (alGet confl t).isSome = true) →
      ((alGet (infos.foldl process_info (uniq, confl)).1 t).isSome = true
        ∨ (alGet (infos.foldl process_info (uniq, confl)).2 t).isSome = true) := by
  intro infos
  induction infos with
  | nil => intro uniq confl t h; simpa using h
  | cons info rest ih =>
    intro uniq confl t h
    exact ih (process_info (uniq, confl) info).1
      (process_info (uniq, confl) info).2 t (nm_present_step info t h)

/-- Processing an info makes its own target present in one of the maps. -/
lemma nm_present_self (uniq : List (Nat × TargetInfo))
    (confl : List (Nat × List Nat)) (info : TargetInfo) :
    (alGet (process_info (uniq, confl) info).1 info.target).isSome = true
    ∨ (alGet (process_info (uniq, confl) info).2 info.target).isSome = true := by
  match hc : alGet confl info.target with
  | some ids =>
    simp only [process_info, hc]
    exact Or.inr (by rw [alGet_alSet_self]; rfl)
  | none =>
    match hu : alGet uniq info.target with
    | some old =>
      simp only [process_info, hc, hu]
      exact Or.inr (by rw [alGet_alSet_self]; rfl)
    | none =>
      simp only [process_info, hc, hu]
      exact Or.inl (by rw [alGet_alSet_self]; rfl)

/-- Every processed target lands in one of the two name maps. -/
lemma nm_present :
    ∀ (infos : List TargetInfo) (uniq : List (Nat × TargetInfo))
      (confl : List (Nat × List Nat)),
      ∀ info ∈ infos,
        ((alGet (infos.foldl process_info (uniq, confl)).1 info.target).isSome = true
        ∨ (alGet (infos.foldl process_info (uniq, confl)).2 info.target).isSome = true) := by
  intro infos
  induction infos with
  | nil => intro uniq confl info h; cases h
  | cons hd rest ih =>
    intro uniq confl info h
    rcases List.mem_cons.mp h with h | h
    · subst h
      exact nm_present_fold rest _ _ info.target (nm_present_self uniq confl info)
    · exact ih _ _ info h

/-- Ids inserted by the id-map fold are exactly the initial ones plus the
ids of the folded infos. -/
lemma idmap_isSome :
    ∀ (infos : List TargetInfo) (m : List (Nat × TargetInfo)) (k : Nat),
      (alGet (infos.foldl (fun m info => alSet m info.id info) m) k).isSome = true
      ↔ (alGet m k).isSome = true ∨ ∃ info ∈ infos, info.id = k := by
  intro infos
  induction infos with
  | nil => intro m k; simp
  | cons info rest ih =>
    intro m k
    rw [List.foldl_cons, ih]
    by_cases h : info.id = k
    · subst h
      simp [alGet_alSet_self]
    · rw [alGet_alSet_ne _ _ (fun hh => h hh.symm)]
      constructor
      · rintro (hm | ⟨i, hi, hik⟩)
        · exact Or.inl hm
        · exact Or.inr ⟨i, List.mem_cons_of_mem _ hi, hik⟩
      · rintro (hm | ⟨i, hi, hik⟩)
        · exact Or.inl hm
        · rcases List.mem_cons.mp hi with hi | hi
          · subst hi; exact absurd hik h
          · exact Or.inr ⟨i, hi, hik⟩

/-- C6: for any parsed index (any flattened list of `TargetInfo`s), the
key sets of `target_to_unique_info` and `target_to_conflicting_ids` are
disjoint while every processed display name appears in one of them, every
conflict list has length at least 2, and every id in a conflict list is a
key of `id_to_info`. -/
theorem C6_index_consistency (infos : List TargetInfo) :
    (∀ name, (alGet (derive_name_mappings infos).1 name).isSome = true →
        alGet (derive_name_mappings infos).2 name = none)
    ∧ (∀ name ids, alGet (derive_name_mappings infos).2 name = some ids →
        2 ≤ ids.length ∧ ∀ i ∈ ids, (alGet (derive_id_to_info infos) i).isSome = true)
    ∧ (∀ info ∈ infos,
        (alGet (derive_name_mappings infos).1 info.target).isSome = true
        ∨ (alGet (derive_name_mappings infos).2 info.target).isSome = true) := by
  have hinv : NMInv (derive_name_mappings infos).1 (derive_name_mappings infos).2
      ([] ++ infos.map (fun i => i.id)) := by
    refine NMInv_fold infos [] [] [] ⟨fun t => Or.inl rfl, ?_, ?_⟩
    · intro t ids h; simp [alGet] at h
    · intro t info h; simp [alGet] at h
  obtain ⟨h1, h2, _⟩ := hinv
  refine ⟨fun name hsome => ?_, fun name ids hids => ?_, nm_present infos [] []⟩
  · rcases h1 name with h | h
    · rw [h] at hsome; cases hsome
    · exact h
  · obtain ⟨hlen, hall⟩ := h2 name ids hids
    refine ⟨hlen, fun i hi => ?_⟩
    have : i ∈ infos.map (fun i => i.id) := by simpa using hall i hi
    rw [derive_id_to_info, idmap_isSome]
    right
    obtain ⟨info, hinfo, hid⟩ := List.mem_map.mp this
    exact ⟨info, hinfo, hid⟩

/-- C6 witness: two infos sharing display name 5 with ids 1 and 2 produce
the conflict list `[1, 2]`, of length 2, whose ids both resolve in
`id_to_info`. -/
theorem C6_index_consistency_witness :
    2 ≤ ([1, 2] : List Nat).length
    ∧ (alGet (derive_id_to_info [⟨5, 1⟩, ⟨5, 2⟩]) 1).isSome = true
    ∧ ((alGet (derive_name_mappings [⟨5, 1⟩, ⟨5, 2⟩]).1 5).isSome = true
        ∨ (alGet (derive_name_mappings [⟨5, 1⟩, ⟨5, 2⟩]).2 5).isSome = true) := by
  have h := C6_index_consistency [⟨5, 1⟩, ⟨5, 2⟩]
  have hc := h.2.1 5 [1, 2] (by decide)
  exact ⟨hc.1, hc.2 1 (by decide), h.2.2 ⟨5, 1⟩ (by decide)⟩

/-! ## Theorems for claims C7 and C9 -/

/-- C7: the unknown-teacher half of the claim holds (a `ValueError` is
raised), but the free-period half fails: querying teacher 7 at weekday 1
period 3 — a free period, since the teacher's only course starts at
period 1 with streak 1 — returns that unrelated period-1 node instead of
raising. The free-period validation exists only in `_check_course_valid`,
which is syntactically invalid dead code. -/
theorem C7_free_period_not_rejected :
    fetch_course_node [(7, c7Teacher)] 9 1 3 = .error .teacherNotFound
    ∧ fetch_course_node [(7, c7Teacher)] 7 1 3 = .ok (some c7Busy)
    ∧ c7Busy.is_free = false :=
  ⟨rfl, rfl, rfl⟩

/-- C9: a cache file whose content fails to parse or validate is treated
exactly as an absent file — `fetch_from_file` returns `None` for both — and
a subsequent non-refresh `fetch` with an empty memory tier proceeds to the
source and overwrites the file, while a failing file write surfaces as a
cache-write error. -/
theorem C9_cache_file_robustness (α : Type) (net : α) :
    fetch_from_file (FileState.corrupt : FileState α) = none
    ∧ fetch_from_file (FileState.absent : FileState α) = none
    ∧ cache_fetch false none (FileState.corrupt : FileState α) net true
        = .ok ⟨net, some net, .valid net⟩
    ∧ cache_fetch false none (FileState.corrupt : FileState α) net false
        = .error .cacheWrite :=
  ⟨rfl, rfl, rfl, rfl⟩

/-! ## Theorems for claim C8 -/

lemma ne_nil_of_isEmpty_false {α : Type} {l : List α} (h : l.isEmpty = false) :
    l ≠ [] := by
  cases l with
  | nil => simp [List.isEmpty] at h
  | cons a t => simp

/-- The prefix kept by `takeWhile` satisfies the predicate throughout. -/
lemma tw_all {α : Type} (f : α → Bool) : ∀ l : List α,
    (l.takeWhile f).all f = true := by
  intro l
  induction l with
  | nil => rfl
  | cons a t ih =>
    rw [List.takeWhile_cons]
    by_cases h : f a = true
    · simp [h, ih]
    · simp [h]

lemma tw_of_all {α : Type} (f : α → Bool) : ∀ l : List α,
    l.all f = true → l.takeWhile f = l := by
  intro l
  induction l with
  | nil => intro _; rfl
  | cons a t ih =>
    intro h
    rw [List.all_cons, Bool.and_eq_true] at h
    rw [List.takeWhile_cons, if_pos h.1, ih h.2]

lemma dw_of_all {α : Type} (f : α → Bool) : ∀ l : List α,
    l.all f = true → l.dropWhile f = [] := by
  intro l
  induction l with
  | nil => intro _; rfl
  | cons a t ih =>
    intro h
    rw [List.all_cons, Bool.and_eq_true] at h
    rw [List.dropWhile_cons, if_pos h.1, ih h.2]

/-- `takeWhile`/`dropWhile` split at the boundary of an all-`f` prefix
followed by a suffix whose head refutes `f`. -/
lemma tw_append_stop {α : Type} (f : α → Bool) :
    ∀ (p s : List α), p.all f = true →
      (∀ x, s.head? = some x → f x = false) →
      (p ++ s).takeWhile f = p ∧ (p ++ s).dropWhile f = s := by
  intro p
  induction p with
  | nil =>
    intro s _ hhd
    cases s with
    | nil => exact ⟨rfl, rfl⟩
    | cons x t =>
      have hx := hhd x rfl
      constructor
      · rw [List.nil_append, List.takeWhile_cons, if_neg (by simp [hx])]
      · rw [List.nil_append, List.dropWhile_cons, if_neg (by simp [hx])]
  | cons a p' ih =>
    intro s hall hhd
    rw [List.all_cons, Bool.and_eq_true] at hall
    obtain ⟨h1, h2⟩ := ih s hall.2 hhd
    constructor
    · rw [List.cons_append, List.takeWhile_cons, if_pos hall.1, h1]
    · rw [List.cons_append, List.dropWhile_cons, if_pos hall.1, h2]

lemma all_of_take {α : Type} (f : α → Bool) (l : List α) (k : Nat)
    (h : l.all f = true) : (l.take k).all f = true := by
  rw [List.all_eq_true] at h ⊢
  exact fun x hx => h x (List.take_subset _ _ hx)

/-- Every id emitted by `identifyT` is `T` + a latin run + a digit run. -/
lemma identifyT_shape (body : List Ch) (r : IdResult)
    (h : identifyT body = some r) :
    r.ID = none
    ∨ ∃ p s, r.role = .teacher ∧ r.ID = some (chT :: (p ++ s))
        ∧ p ≠ [] ∧ p.all Ch.isLat = true ∧ s ≠ [] ∧ s.all Ch.isDig = true := by
  simp only [identifyT] at h
  split at h
  · cases h
  · split at h
    · -- T4
      rename_i hc
      split at h
      · cases h
        exact Or.inr ⟨_, _, rfl, rfl, ne_nil_of_isEmpty_false hc.1, tw_all _ _,
          ne_nil_of_isEmpty_false hc.2.1, tw_all _ _⟩
      · cases h
    · split at h
      · -- T5
        rename_i hc
        cases h
        exact Or.inr ⟨_, _, rfl, rfl, ne_nil_of_isEmpty_false hc.1, tw_all _ _,
          ne_nil_of_isEmpty_false hc.2.1, tw_all _ _⟩
      · split at h
        · -- fallback
          rename_i hc
          cases h
          exact Or.inr ⟨[chT], _, rfl, rfl, by simp, by decide,
            ne_nil_of_isEmpty_false hc.2.1, tw_all _ _⟩
        · split at h
          · -- T6a
            split at h
            · cases h; exact Or.inl rfl
            · cases h
          · split at h
            · -- T6b / T6d
              split at h
              · cases h; exact Or.inl rfl
              · split at h
                · cases h; exact Or.inl rfl
                · cases h
            · split at h
              · -- T6c / T6d
                split at h
                · cases h; exact Or.inl rfl
                · split at h
                  · cases h; exact Or.inl rfl
                  · cases h
              · cases h

/-- Every id emitted by `identifyC` is `C` + a digit run. -/
lemma identifyC_shape (body : List Ch) (r : IdResult)
    (h : identifyC body = some r) :
    r.ID = none
    ∨ ∃ ds, r.role = .class_ ∧ r.ID = some (chC :: ds) ∧ ds.all Ch.isDig = true := by
  simp only [identifyC] at h
  split at h
  · -- C5
    cases h
    rename_i hcond
    rw [Bool.and_eq_true] at hcond
    exact Or.inr ⟨body, rfl, rfl, hcond.1⟩
  · split at h
    · cases h; exact Or.inl rfl
    · split at h
      · -- C4
        cases h
        rename_i hcond
        rw [Bool.and_eq_true] at hcond
        exact Or.inr ⟨_, rfl, rfl, all_of_take _ _ _ hcond.1⟩
      · cases h

/-- Every id emitted by the prefix-less branch is a teacher id
`T` + latin + digits or a class id `C` + digits. -/
lemma identifyNoPrefix_shape (text : List Ch) (r : IdResult)
    (h : identifyNoPrefix text = some r) :
    r.ID = none
    ∨ (∃ p s, r.role = .teacher ∧ r.ID = some (chT :: (p ++ s))
        ∧ p ≠ [] ∧ p.all Ch.isLat = true ∧ s ≠ [] ∧ s.all Ch.isDig = true)
    ∨ (∃ ds, r.role = .class_ ∧ r.ID = some (chC :: ds)
        ∧ ds.all Ch.isDig = true) := by
  simp only [identifyNoPrefix] at h
  split at h
  · -- T2
    cases h
    rename_i hcond
    simp only [Bool.and_eq_true, Bool.not_eq_true'] at hcond
    refine Or.inr (Or.inl ⟨_, _, rfl, rfl, ?_, tw_all _ _, ?_, tw_all _ _⟩)
    · exact ne_nil_of_isEmpty_false hcond.1.1.1
    · exact ne_nil_of_isEmpty_false hcond.1.1.2
  · -- T3
    split at h
    · cases h
      rename_i hcond
      simp only [Bool.and_eq_true, Bool.not_eq_true'] at hcond
      have htext : text = text.takeWhile Ch.isLat
          ++ (text.dropWhile Ch.isLat).takeWhile Ch.isDig := by
        conv_lhs => rw [← List.takeWhile_append_dropWhile (p := Ch.isLat) (l := text)]
        congr 1
        conv_lhs =>
          rw [← List.takeWhile_append_dropWhile (p := Ch.isDig)
            (l := text.dropWhile Ch.isLat)]
        rw [List.isEmpty_iff.mp hcond.2, List.append_nil]
      refine Or.inr (Or.inl ⟨text.takeWhile Ch.isLat,
        (text.dropWhile Ch.isLat).takeWhile Ch.isDig, rfl, ?_, ?_, tw_all _ _,
        ?_, tw_all _ _⟩)
      · exact congrArg (fun l => some (chT :: l)) htext
      · exact ne_nil_of_isEmpty_false hcond.1.1
      · exact ne_nil_of_isEmpty_false hcond.1.2
    · split at h
      · cases h; exact Or.inl rfl
      · split at h
        · -- C3
          cases h
          rename_i hcond
          rw [Bool.and_eq_true] at hcond
          exact Or.inr (Or.inr ⟨text, rfl, rfl, hcond.1⟩)
        · split at h
          · -- C2
            cases h
            rename_i hcond
            rw [Bool.and_eq_true] at hcond
            exact Or.inr (Or.inr ⟨_, rfl, rfl, all_of_take _ _ _ hcond.1⟩)
          · cases h

/-- Every id emitted by `identify_type` is a `T`+latin+digits teacher id or
a `C`+digits class id. -/
lemma identify_type_shape (origLen : Nat) (text : List Ch) (r : IdResult)
    (h : identify_type origLen text = some r) :
    r.ID = none
    ∨ (∃ p s, r.role = .teacher ∧ r.ID = some (chT :: (p ++ s))
        ∧ p ≠ [] ∧ p.all Ch.isLat = true ∧ s ≠ [] ∧ s.all Ch.isDig = true)
    ∨ (∃ ds, r.role = .class_ ∧ r.ID = some (chC :: ds)
        ∧ ds.all Ch.isDig = true) := by
  rw [identify_type] at h
  split at h
  · cases h
  · split at h
    · cases h
    · split at h
      · cases h; exact Or.inl rfl
      · split at h
        · cases h; exact Or.inl rfl
        · split at h
          · rcases identifyT_shape _ _ h with h' | h'
            · exact Or.inl h'
            · exact Or.inr (Or.inl h')
          · split at h
            · rcases identifyC_shape _ _ h with h' | h'
              · exact Or.inl h'
              · exact Or.inr (Or.inr h')
            · exact identifyNoPrefix_shape _ _ h

/-- Re-identifying a teacher id `T` + latin run + digit run yields the
canonical T5 result with the same id. -/
lemma identify_teacher_id (p s : List Ch) (hp : p ≠ [])
    (hpl : p.all Ch.isLat = true) (hs : s ≠ []) (hsd : s.all Ch.isDig = true) :
    identify_type (chT :: (p ++ s)).length (chT :: (p ++ s))
      = some ⟨.teacher, some .T5, none, some (chT :: (p ++ s))⟩ := by
  obtain ⟨d, hdmem⟩ := List.exists_mem_of_ne_nil s hs
  have hd : d.isDig = true := List.all_eq_true.mp hsd d hdmem
  have hdlat : d.isLat = false := by
    cases d <;> simp_all [Ch.isDig, Ch.isLat]
  have hstop : ∀ x, s.head? = some x → Ch.isLat x = false := by
    intro x hx
    have hxmem : x ∈ s := by
      cases s with
      | nil => cases hx
      | cons b t =>
        obtain rfl := Option.some_inj.mp hx
        exact List.mem_cons_self _ _
    have hxd : x.isDig = true := List.all_eq_true.mp hsd x hxmem
    cases x <;> simp_all [Ch.isDig, Ch.isLat]
  have hsplit := tw_append_stop Ch.isLat p s hpl hstop
  have hpe : p.isEmpty = false := List.isEmpty_eq_false.mpr hp
  have hse : s.isEmpty = false := List.isEmpty_eq_false.mpr hs
  have hlen : ¬ ((chT :: (p ++ s)).length < 2) := by
    have := List.length_pos.mpr hs
    simp only [List.length_cons, List.length_append]
    omega
  have hallLat : ¬ ((chT :: (p ++ s)).all Ch.isLat = true) := by
    intro hc
    have := List.all_eq_true.mp hc d (by simp [hdmem])
    simp [hdlat] at this
  have hallHan : ¬ ((chT :: (p ++ s)).all Ch.isHan = true) := by
    intro hc
    have := List.all_eq_true.mp hc chT (by simp)
    simp [chT, Ch.isHan] at this
  rw [identify_type, if_neg hlen, if_neg (by simp), if_neg hallLat,
    if_neg hallHan, if_pos (show (chT :: (p ++ s)).head? = some chT from rfl)]
  show identifyT (p ++ s) = _
  simp only [identifyT, hsplit.1, hsplit.2, tw_of_all Ch.isDig s hsd,
    dw_of_all Ch.isDig s hsd]
  simp [hpe, hse]

/-- Re-identifying a class id `C` + 6 digits yields the canonical C5 result
with the same id and the class code as target. -/
lemma identify_class_id (ds : List Ch) (hdig : ds.all Ch.isDig = true)
    (hlen : ds.length = 6) :
    identify_type (chC :: ds).length (chC :: ds)
      = some ⟨.class_, some .C5, some (ds.drop 3), some (chC :: ds)⟩ := by
  have hds : ds ≠ [] := by intro h; rw [h] at hlen; cases hlen
  obtain ⟨d, hdmem⟩ := List.exists_mem_of_ne_nil ds hds
  have hd : d.isDig = true := List.all_eq_true.mp hdig d hdmem
  have hdlat : d.isLat = false := by
    cases d <;> simp_all [Ch.isDig, Ch.isLat]
  have hlen2 : ¬ ((chC :: ds).length < 2) := by
    simp only [List.length_cons]
    omega
  have hallLat : ¬ ((chC :: ds).all Ch.isLat = true) := by
    intro hc
    have := List.all_eq_true.mp hc d (by simp [hdmem])
    simp [hdlat] at this
  have hallHan : ¬ ((chC :: ds).all Ch.isHan = true) := by
    intro hc
    have := List.all_eq_true.mp hc chC (by simp)
    simp [chC, Ch.isHan] at this
  have hTC : ¬ ((chC :: ds).head? = some chT) := by simp [chC, chT]
  rw [identify_type, if_neg hlen2, if_neg (by simp), if_neg hallLat,
    if_neg hallHan, if_neg hTC, if_pos (show (chC :: ds).head? = some chC from rfl)]
  show identifyC ds = _
  simp [identifyC, hdig, hlen]

/-- C8 (amended): re-running `identify` on a result's id preserves the role
and the id for every teacher result (the match case normalises to T5 and
the target is dropped) and for every class result whose id has the standard
7-character form `C` + 6 digits (the match case normalises to C5, the
target to the last three digits).  When the result carries no id, re-running
on the text trivially reproduces the result, `identify` being a pure
function.  For class ids of any other length (from C2/C4 inputs whose
repeated-code segment is unusually long or short) re-identification may
fail or truncate the id, so full idempotence does not hold. -/
theorem C8_identify_id_roundtrip (origLen : Nat) (text : List Ch)
    (r : IdResult) (h : identify_type origLen text = some r) :
    (∀ i, r.ID = some i → r.role = .teacher →
      identify_type i.length i = some ⟨.teacher, some .T5, none, some i⟩)
    ∧ (∀ i, r.ID = some i → r.role = .class_ → i.length = 7 →
      identify_type i.length i = some ⟨.class_, some .C5, some (i.drop 4), some i⟩) := by
  rcases identify_type_shape origLen text r h with
    hid | ⟨p, s, hrole, hid, hp, hpl, hs, hsd⟩ | ⟨ds, hrole, hid, hdig⟩
  · constructor <;> (intro i hi; rw [hid] at hi; cases hi)
  · constructor
    · intro i hi _
      rw [hid] at hi
      obtain rfl := Option.some_inj.mp hi
      exact identify_teacher_id p s hp hpl hs hsd
    · intro i hi hcls
      rw [hrole] at hcls
      simp at hcls
  · constructor
    · intro i hi hteach
      rw [hrole] at hteach
      simp at hteach
    · intro i hi _ hlen
      rw [hid] at hi
      obtain rfl := Option.some_inj.mp hi
      have h6 : ds.length = 6 := by
        simp only [List.length_cons] at hlen
        omega
      simpa using identify_class_id ds hdig h6

/-- C8 witness: the input `TJA04` re-identifies through its own id to the
identical T5 result. -/
theorem C8_identify_id_roundtrip_witness :
    identify_type 5 [chT, Ch.lat 2, Ch.lat 3, Ch.dig 0, Ch.dig 4]
      = some ⟨.teacher, some .T5, none,
          some [chT, Ch.lat 2, Ch.lat 3, Ch.dig 0, Ch.dig 4]⟩ :=
  (C8_identify_id_roundtrip 5 [chT, Ch.lat 2, Ch.lat 3, Ch.dig 0, Ch.dig 4]
      ⟨.teacher, some .T5, none,
        some [chT, Ch.lat 2, Ch.lat 3, Ch.dig 0, Ch.dig 4]⟩ (by decide)).1
    [chT, Ch.lat 2, Ch.lat 3, Ch.dig 0, Ch.dig 4] (by decide) (by decide)

/-- C8 counterexample to the claim as stated: the six-digit input `110123`
identifies as a C3 result with id `C110123`, but re-running `identify` on
that id yields a C5 result — same role, target and id, different
`match_case` — so `identify(identify(text).id)` is not the original
result. -/
theorem C8_identify_not_idempotent :
    identify_type 6 [Ch.dig 1, Ch.dig 1, Ch.dig 0, Ch.dig 1, Ch.dig 2, Ch.dig 3]
      = some ⟨.class_, some .C3, some [Ch.dig 1, Ch.dig 2, Ch.dig 3],
          some [chC, Ch.dig 1, Ch.dig 1, Ch.dig 0, Ch.dig 1, Ch.dig 2, Ch.dig 3]⟩
    ∧ identify_type 7 [chC, Ch.dig 1, Ch.dig 1, Ch.dig 0, Ch.dig 1, Ch.dig 2, Ch.dig 3]
      = some ⟨.class_, some .C5, some [Ch.dig 1, Ch.dig 2, Ch.dig 3],
          some [chC, Ch.dig 1, Ch.dig 1, Ch.dig 0, Ch.dig 1, Ch.dig 2, Ch.dig 3]⟩
    ∧ (⟨Role.class_, some MatchCase.C3, some [Ch.dig 1, Ch.dig 2, Ch.dig 3],
          some [chC, Ch.dig 1, Ch.dig 1, Ch.dig 0, Ch.dig 1, Ch.dig 2, Ch.dig 3]⟩ : IdResult)
      ≠ ⟨Role.class_, some MatchCase.C5, some [Ch.dig 1, Ch.dig 2, Ch.dig 3],
          some [chC, Ch.dig 1, Ch.dig 1, Ch.dig 0, Ch.dig 1, Ch.dig 2, Ch.dig 3]⟩ :=
  ⟨by decide, by decide, by decide⟩
